import Mathlib

set_option maxRecDepth 8192

/-!
Verification of `generalized_merge_qids.py` (wikidata_qid_generator).

This file gives a shallow embedding, in Lean 4, of the identifier
resolution and disambiguation engine of `generalized_merge_qids.py`:
the disambiguation token generator (`sha1_token`), the batch partition
of codes, the SPARQL union-clause builder, the retrying HTTP client
(modelled as a state machine over a script of attempt outcomes), the
per-row disambiguator, and the output-column assembly.  Theorems below
settle the specification claims about these components.

Python machine-level details are modelled as follows: Python `str` is
Lean `String` (both sequences of Unicode code points), `float`
configuration values are exact rationals, byte strings are `List Nat`
with entries below 256, and 32-bit words are `Nat` reduced modulo
2 ^ 32 at every operation that can overflow.
-/

/-- Substring check on character lists: `leadMatch need hay` is true iff
`need` is an initial segment of `hay` (the empty list always matches). -/

def leadMatch : List Char → List Char → Bool
  | [], _ => true
  | _ :: _, [] => false
  | c :: cs, d :: ds => c == d && leadMatch cs ds

/-- `containsSeq need hay` is true iff `need` occurs contiguously inside
`hay`, the semantics of Python's `in` operator on strings. -/
def containsSeq (need : List Char) : List Char → Bool
  | [] => leadMatch need []
  | d :: ds => leadMatch need (d :: ds) || containsSeq need ds

/-- Python `needle in haystack` for strings (literal substring search). -/
def strContains (haystack needle : String) : Bool :=
  containsSeq needle.data haystack.data

/-- Python `str.strip()`: removes leading and trailing whitespace.
(Python strips the Unicode whitespace set; all codes appearing in the
claims are ASCII, for which `Char.isWhitespace` agrees.) -/
def pyStrip (s : String) : String :=
  String.mk
    (((s.data.dropWhile Char.isWhitespace).reverse.dropWhile Char.isWhitespace).reverse)

/-- One candidate match: the entity id (`qid`) extracted from the item URI
and the (possibly empty) description, as stored in `code_hits` entries
by line 213 of `generalized_merge_qids.py`. -/
structure Hit where
  qid : String
  desc : String
deriving DecidableEq, Repr

/-- The per-row resolution outcome of the disambiguator (spec section 3). -/
inductive ResolutionOutcome where
  | Resolved (entityId : String)
  | Unresolved
  | Ambiguous
deriving DecidableEq, Repr

/-- The disambiguator, translated from the loop body at lines 225-241 of
`generalized_merge_qids.py`:
no hits gives `Unresolved`; a single hit or an empty token gives the
first hit; otherwise hits whose description contains the literal tag
`"[EXT:" ++ token ++ "]"` are selected, and the result is `Resolved`
exactly when that selection is a singleton, else `Ambiguous`. -/
def resolve (hits : List Hit) (token : String) : ResolutionOutcome :=
  match hits with
  | [] => ResolutionOutcome.Unresolved
  | h0 :: rest =>
    if (h0 :: rest).length == 1 || token == "" then
      ResolutionOutcome.Resolved h0.qid
    else
      let tag := "[EXT:" ++ token ++ "]"
      match (h0 :: rest).filter (fun h => strContains h.desc tag) with
      | [e] => ResolutionOutcome.Resolved e.qid
      | _ => ResolutionOutcome.Ambiguous

/-- The hit index: association list from code to the ordered list of
candidate matches, insertion order being response arrival order
(`code_hits` in the source). -/
def HitIndex := List (String × List Hit)

/-- `code_hits.get(code, [])`: the first entry for `code`, defaulting to
the empty hit list. -/
def lookupHits (idx : HitIndex) (code : String) : List Hit :=
  match idx with
  | [] => []
  | c :: cs => if c.1 == code then c.2 else lookupHits cs code

/-- State of the resolution loop: chosen identifiers so far plus the two
counters printed in the run summary. -/
structure ResolveState where
  chosen : List String
  unresolved : Nat
  ambiguous : Nat
deriving DecidableEq, Repr

/-- One iteration of the loop at lines 222-241: a row supplies its raw
code cell and its precomputed token; the cell is trimmed, looked up in
the hit index, resolved, and the outcome is surfaced as an appended
identifier (empty on `Unresolved`/`Ambiguous`) plus counter updates. -/
def stepRow (idx : HitIndex) (st : ResolveState) (row : String × String) : ResolveState :=
  match resolve (lookupHits idx (pyStrip row.1)) row.2 with
  | ResolutionOutcome.Resolved q =>
      { st with chosen := st.chosen ++ [q] }
  | ResolutionOutcome.Unresolved =>
      { chosen := st.chosen ++ [""], unresolved := st.unresolved + 1,
        ambiguous := st.ambiguous }
  | ResolutionOutcome.Ambiguous =>
      { chosen := st.chosen ++ [""], unresolved := st.unresolved,
        ambiguous := st.ambiguous + 1 }

/-- The whole resolution loop over the rows of the input table. -/
def runResolve (idx : HitIndex) (rows : List (String × String)) : ResolveState :=
  rows.foldl (stepRow idx) { chosen := [], unresolved := 0, ambiguous := 0 }

/-- The identifier a single outcome contributes to the output column. -/
def outcomeCell : ResolutionOutcome → String
  | ResolutionOutcome.Resolved q => q
  | _ => ""

/-- Reduce to a 32-bit word. -/
def w32 (n : Nat) : Nat := n % 4294967296

/-- Left rotation of a 32-bit word (arithmetic form). -/
def rotl (n x : Nat) : Nat := (x * 2 ^ n + x / 2 ^ (32 - n)) % 4294967296

/-- UTF-8 encoding of one Unicode scalar value. -/
def utf8Char (c : Nat) : List Nat :=
  if c < 128 then [c]
  else if c < 2048 then [192 + c / 64, 128 + c % 64]
  else if c < 65536 then [224 + c / 4096, 128 + c / 64 % 64, 128 + c % 64]
  else [240 + c / 262144, 128 + c / 4096 % 64, 128 + c / 64 % 64, 128 + c % 64]

/-- Python `s.encode("utf-8", "ignore")`. -/
def utf8Encode (s : List Char) : List Nat :=
  s.flatMap (fun c => utf8Char c.toNat)

/-- Big-endian 8-byte encoding of the 64-bit message bit length. -/
def beBytes8 (n : Nat) : List Nat :=
  [n / 2 ^ 56 % 256, n / 2 ^ 48 % 256, n / 2 ^ 40 % 256, n / 2 ^ 32 % 256,
   n / 2 ^ 24 % 256, n / 2 ^ 16 % 256, n / 2 ^ 8 % 256, n % 256]

/-- SHA-1 padding: append 0x80, zeros to 56 mod 64, then the bit length. -/
def sha1Pad (msg : List Nat) : List Nat :=
  msg ++ [128] ++ List.replicate ((120 - (msg.length + 1) % 64) % 64) 0
      ++ beBytes8 (msg.length * 8)

/-- Big-endian 32-bit words from a byte list. -/
def toWords : List Nat → List Nat
  | a :: b :: c :: d :: rest => (((a * 256 + b) * 256 + c) * 256 + d) :: toWords rest
  | _ => []

/-- Message-schedule extension: prepend `k` more words to the reversed
word list, each the 1-rotation of the xor of words 3, 8, 14 and 16 back. -/
def extendWords : Nat → List Nat → List Nat
  | 0, rev => rev
  | k + 1, rev =>
      extendWords k
        (rotl 1 (rev.getD 2 0 ^^^ rev.getD 7 0 ^^^ rev.getD 13 0 ^^^ rev.getD 15 0) :: rev)

/-- SHA-1 round function. -/
def sha1F (t b c d : Nat) : Nat :=
  if t < 20 then (b &&& c) ||| ((b ^^^ 4294967295) &&& d)
  else if t < 40 then b ^^^ c ^^^ d
  else if t < 60 then (b &&& c) ||| (b &&& d) ||| (c &&& d)
  else b ^^^ c ^^^ d

/-- SHA-1 round constants. -/
def sha1K (t : Nat) : Nat :=
  if t < 20 then 1518500249
  else if t < 40 then 1859775393
  else if t < 60 then 2400959708
  else 3395469782

/-- The 80 compression rounds over one block's schedule. -/
def sha1Rounds : Nat → List Nat → Nat × Nat × Nat × Nat × Nat → Nat × Nat × Nat × Nat × Nat
  | _, [], st => st
  | t, w :: ws, (a, b, c, d, e) =>
      sha1Rounds (t + 1) ws
        (w32 (rotl 5 a + sha1F t b c d + e + sha1K t + w), a, rotl 30 b, c, d)

/-- Compress one 64-byte block into the running hash state. -/
def sha1Compress (h : Nat × Nat × Nat × Nat × Nat) (block : List Nat) :
    Nat × Nat × Nat × Nat × Nat :=
  let ws := (extendWords 64 (toWords block).reverse).reverse
  match sha1Rounds 0 ws h, h with
  | (a, b, c, d, e), (h0, h1, h2, h3, h4) =>
      (w32 (h0 + a), w32 (h1 + b), w32 (h2 + c), w32 (h3 + d), w32 (h4 + e))

/-- Python-style slicing of a sequence into consecutive chunks of `n`
(the generator `chunked` / the comprehension at line 204 of the source). -/
def chunkIdx {α : Type} (seq : List α) (n : Nat) : List (List α) :=
  (List.range ((seq.length + n - 1) / n)).map (fun i => (seq.drop (i * n)).take n)

/-- The full SHA-1 state after hashing a byte string. -/
def sha1States (msg : List Nat) : Nat × Nat × Nat × Nat × Nat :=
  (chunkIdx (sha1Pad msg) 64).foldl sha1Compress
    (1732584193, 4023233417, 2562383102, 271733878, 3285377520)

/-- One lowercase hexadecimal digit. -/
def hexDigitChar (n : Nat) : Char :=
  if n % 16 < 10 then Char.ofNat (48 + n % 16) else Char.ofNat (87 + n % 16)

/-- Eight lowercase hex digits of a 32-bit word, most significant first. -/
def toHex8 (x : Nat) : List Char :=
  [hexDigitChar (x / 2 ^ 28), hexDigitChar (x / 2 ^ 24), hexDigitChar (x / 2 ^ 20),
   hexDigitChar (x / 2 ^ 16), hexDigitChar (x / 2 ^ 12), hexDigitChar (x / 2 ^ 8),
   hexDigitChar (x / 2 ^ 4), hexDigitChar x]

/-- `hashlib.sha1(msg).hexdigest()`: 40 lowercase hex characters. -/
def sha1Hexdigest (msg : List Nat) : List Char :=
  match sha1States msg with
  | (h0, h1, h2, h3, h4) => toHex8 h0 ++ toHex8 h1 ++ toHex8 h2 ++ toHex8 h3 ++ toHex8 h4

/-- `sha1_token` of `generalized_merge_qids.py` lines 27-29 (identical to
`ext_token` in `generate_qs_csv.py` lines 115-117): the descriptor is cut
to its first 256 characters, joined to the identity with the separator
`"|"`, the UTF-8 bytes are SHA-1 hashed, and the first 12 hex characters
of the digest are returned.  (Python's `errors="ignore"` drops lone
surrogates, which a Lean `Char` cannot hold, so encoding is total here.) -/
def sha1_token (fid : String) (coords_json : String) : String :=
  let basis := fid ++ "|" ++ String.mk (coords_json.data.take 256)
  String.mk ((sha1Hexdigest (utf8Encode basis.data)).take 12)

/-- A lowercase hexadecimal digit (`0`-`9` or `a`-`f`). -/
def isHexChar (c : Char) : Bool :=
  c.isDigit || ('a' ≤ c && c ≤ 'f')

/-- Lines 169-177 of `generalized_merge_qids.py`: the disambiguation
token of one row.  Column presence (`_feature_id`, `_coords_json`) is a
property of the whole table; when either column is missing every row
gets the empty token.  When both columns are present, a missing cell
value (pandas `NaN`, replaced by `fillna("")`) is read as the empty
string and still hashed. -/
def rowToken (haveFeature haveCoords : Bool) (fid cj : Option String) : String :=
  if haveFeature && haveCoords then
    sha1_token (fid.getD "") (cj.getD "")
  else ""

/-- The outcome the environment presents to one HTTP attempt of
`http_post_sparql`: either `requests.post` itself fails (connection
error, timeout), or a response arrives with a status code, a flag saying
whether the body parses as the expected JSON schema, and the parsed
value when it does. -/
inductive AttemptResult (α : Type) where
  | transportFailure
  | httpStatus (status : Nat) (bodyParses : Bool) (data : α)

/-- The exception classes that can leave a single attempt of the `try`
block at lines 46-51 of `generalized_merge_qids.py`. -/
inductive AttemptErr where
  | transport
  | retryableHttp (status : Nat)
  | httpError (status : Nat)
  | parseError
deriving DecidableEq, Repr

/-- The status codes treated as retryable at line 48. -/
def retryableStatus (s : Nat) : Bool :=
  s == 429 || s == 500 || s == 502 || s == 503 || s == 504

/-- Evaluation of one attempt, following lines 47-51 in order: a
transport failure raises; a retryable status raises `HTTPError`;
`raise_for_status` raises on any other 4xx/5xx; otherwise the body is
parsed and a malformed body raises a parse error.  Every one of these
exceptions lands in the same `except Exception` handler. -/
def attemptEval {α : Type} : AttemptResult α → Except AttemptErr α
  | AttemptResult.transportFailure => Except.error AttemptErr.transport
  | AttemptResult.httpStatus s ok d =>
    if retryableStatus s then Except.error (AttemptErr.retryableHttp s)
    else if 400 ≤ s && s < 600 then Except.error (AttemptErr.httpError s)
    else if ok then Except.ok d else Except.error AttemptErr.parseError

/-- Backoff sleep after a failed attempt, `backoff ** (attempt - 1) +
0.1 * attempt` (line 55), with the float arithmetic read exactly over
the rationals. -/
def sleepDur (backoff : ℚ) (attempt : Nat) : ℚ :=
  backoff ^ (attempt - 1) + (1 / 10) * attempt

/-- Trace of one `http_post_sparql` call: how many attempts were made,
the backoff sleeps performed between them, and the returned value or the
exception finally propagated. -/
structure RunTrace (α : Type) where
  attemptsMade : Nat
  sleeps : List ℚ
  result : Except AttemptErr α

/-- The `while True` loop of `http_post_sparql` (lines 43-57), with
`attemptsDone` attempts already made.  The `script` gives the
environment's outcome for each (1-based) attempt number.  The `fuel`
argument only makes the recursion structural: seeded with `retries` it
never reaches zero, because the loop recurses only while
`attempt < retries`. -/
def httpRunFuel {α : Type} (backoff : ℚ) (script : Nat → AttemptResult α)
    (retries : Nat) : Nat → Nat → RunTrace α
  | 0, attemptsDone =>
    match attemptEval (script (attemptsDone + 1)) with
    | Except.ok d =>
        { attemptsMade := attemptsDone + 1, sleeps := [], result := Except.ok d }
    | Except.error e =>
        { attemptsMade := attemptsDone + 1, sleeps := [], result := Except.error e }
  | fuel + 1, attemptsDone =>
    match attemptEval (script (attemptsDone + 1)) with
    | Except.ok d =>
        { attemptsMade := attemptsDone + 1, sleeps := [], result := Except.ok d }
    | Except.error e =>
      if retries ≤ attemptsDone + 1 then
        { attemptsMade := attemptsDone + 1, sleeps := [], result := Except.error e }
      else
        let rest := httpRunFuel backoff script retries fuel (attemptsDone + 1)
        { attemptsMade := rest.attemptsMade,
          sleeps := sleepDur backoff (attemptsDone + 1) :: rest.sleeps,
          result := rest.result }

/-- A full `http_post_sparql` call: no attempts made yet. -/
def httpPostSparql {α : Type} (retries : Nat) (backoff : ℚ)
    (script : Nat → AttemptResult α) : RunTrace α :=
  httpRunFuel backoff script retries retries 0

/-- A transport failure or a response with one of the five retryable
status codes: the failures the claims call retryable. -/
def isRetryableFailure {α : Type} : AttemptResult α → Bool
  | AttemptResult.transportFailure => true
  | AttemptResult.httpStatus s _ _ => retryableStatus s

/-- The exception such a failing attempt raises. -/
def failureErr {α : Type} : AttemptResult α → AttemptErr
  | AttemptResult.transportFailure => AttemptErr.transport
  | AttemptResult.httpStatus s _ _ => AttemptErr.retryableHttp s

/-- Line 179 of `generalized_merge_qids.py`:
`sorted(set(strip(x) for x in column if strip(x)))` — the distinct
non-empty stripped code strings in ascending lexicographic order. -/
def extractCodes (col : List String) : List String :=
  List.insertionSort (· ≤ ·) (((col.map pyStrip).filter (fun s => s ≠ "")).dedup)

/-- The property pattern of line 187, the regular expression `P\d+`
anchored on both sides, applied after `strip()`: the capital letter `P`
followed by one or more digits.  (Python's `\d` also accepts non-ASCII
decimal digits; the claims concern only ASCII inputs, modelled with
`Char.isDigit`.) -/
def isPropCode (s : String) : Bool :=
  match s.data with
  | c :: rest => c == 'P' && !rest.isEmpty && rest.all Char.isDigit
  | [] => false

/-- The pattern in the words of the specification (section 3): an ASCII
letter followed by digits.  Stated from the spec for comparison with the
source pattern `isPropCode`. -/
def isLetterDigits (s : String) : Bool :=
  match s.data with
  | c :: rest => c.isAlpha && !rest.isEmpty && rest.all Char.isDigit
  | [] => false

/-- One union match clause (line 189). -/
def propClause (p : String) : String := "?item wdt:" ++ p ++ " ?code ."

/-- Lines 184-189: every property is stripped, kept only when it matches
the pattern, and turned into a match clause. -/
def buildUnions (props : List String) : List String :=
  (props.map pyStrip).filterMap
    (fun p => if isPropCode p then some (propClause p) else none)

/-- Line 190: the union block of the query; when no clause survives the
filter, a single default clause for property `P528` is used, so query
construction never fails. -/
def unionBlock (props : List String) : String :=
  let unions := buildUnions props
  if unions.isEmpty then "\x7b ?item wdt:P528 ?code . \x7d"
  else String.intercalate " UNION " (unions.map (fun u => "\x7b" ++ u ++ "\x7d"))

/-- A data table: the ordered list of (column name, cell values) pairs
of a pandas `DataFrame` read with `dtype=str`. -/
abbrev Table := List (String × List String)

/-- Selection of a column by name (column names of a parsed CSV are
distinct, so the first match is the column). -/
def getCol : Table → String → Option (List String)
  | [], _ => none
  | c :: cs, nm => if c.1 == nm then some c.2 else getCol cs nm

/-- `df["wikidata"] = chosen` (line 243): overwrites the column when one
of that name exists, otherwise appends it as the last column. -/
def setCol (t : Table) (nm : String) (vals : List String) : Table :=
  if t.any (fun c => c.1 == nm) then
    t.map (fun c => if c.1 == nm then (nm, vals) else c)
  else t ++ [(nm, vals)]

/-- Python `list.index` of a present element. -/
def pyIndex : List String → String → Nat
  | [], _ => 0
  | y :: ys, x => if y == x then 0 else pyIndex ys x + 1

/-- Python `list.insert(i, a)`. -/
def pyInsert {α : Type} (l : List α) (i : Nat) (a : α) : List α :=
  l.take i ++ a :: l.drop i

/-- Lines 243-256 of `generalized_merge_qids.py`: store the chosen
identifiers in the `wikidata` column, remove `wikidata` from the column
list, reinsert it immediately after the code column, and reindex the
table in that column order; raises `ValueError` when the code column is
absent from the remaining columns. -/
def assembleOutput (df : Table) (code_col : String) (chosen : List String) :
    Except String Table :=
  let df2 := setCol df "wikidata" chosen
  let cols := (df2.map Prod.fst).erase "wikidata"
  if code_col ∈ cols then
    let cols2 := pyInsert cols (pyIndex cols code_col + 1) "wikidata"
    Except.ok (cols2.filterMap (fun nm => (getCol df2 nm).map (fun v => (nm, v))))
  else Except.error "Code column not found when arranging columns."

theorem runResolve_chosen_aux (idx : HitIndex) (rows : List (String × String))
    (st : ResolveState) :
    (rows.foldl (stepRow idx) st).chosen =
      st.chosen ++ rows.map (fun r => outcomeCell (resolve (lookupHits idx (pyStrip r.1)) r.2)) := by
  induction rows generalizing st with
  | nil => simp
  | cons r rs ih =>
    rw [List.foldl_cons, ih]
    cases hr : resolve (lookupHits idx (pyStrip r.1)) r.2 <;>
      simp [stepRow, hr, outcomeCell]

/-- Claim C1: with zero hits for the code the outcome is `Unresolved`,
surfaced as an empty identifier plus an unresolved-count increment; with
exactly one hit the outcome is `Resolved` with that hit's entity id for
every token, and with an empty token and several hits the outcome is
`Resolved` with the first hit in arrival order. -/
theorem resolve_zero_one_empty (idx : HitIndex) (code token : String) (st : ResolveState) :
    (lookupHits idx code = [] →
      resolve (lookupHits idx code) token = ResolutionOutcome.Unresolved ∧
      (∀ row : String × String, (pyStrip row.1) = code → row.2 = token →
        stepRow idx st row =
          { chosen := st.chosen ++ [""], unresolved := st.unresolved + 1,
            ambiguous := st.ambiguous })) ∧
    (∀ h, lookupHits idx code = [h] →
      resolve (lookupHits idx code) token = ResolutionOutcome.Resolved h.qid) ∧
    (∀ h rest, lookupHits idx code = h :: rest → token = "" →
      resolve (lookupHits idx code) token = ResolutionOutcome.Resolved h.qid) := by
  refine ⟨fun hnil => ⟨by rw [hnil]; rfl, fun row h1 h2 => ?_⟩, fun h hone => ?_, ?_⟩
  · simp [stepRow, h1, h2, hnil, resolve]
  · rw [hone]; simp [resolve]
  · intro h rest hcons htok
    rw [hcons, htok]
    simp [resolve]

/-- Claim C1 witness: concrete instances of all three cases. -/
theorem resolve_zero_one_empty_witness :
    (resolve (lookupHits [] "X") "t" = ResolutionOutcome.Unresolved ∧
      stepRow [] { chosen := [], unresolved := 0, ambiguous := 0 } ("X", "t") =
        { chosen := [""], unresolved := 1, ambiguous := 0 }) ∧
    resolve (lookupHits [("A", [Hit.mk "Q1" "d"])] "A") "t" =
      ResolutionOutcome.Resolved "Q1" ∧
    resolve (lookupHits [("B", [Hit.mk "Q2" "", Hit.mk "Q3" ""])] "B") "" =
      ResolutionOutcome.Resolved "Q2" := by
  refine ⟨?_, ?_, ?_⟩
  · have h := (resolve_zero_one_empty [] "X" "t"
      { chosen := [], unresolved := 0, ambiguous := 0 }).1 rfl
    exact ⟨h.1, h.2 ("X", "t") rfl rfl⟩
  · exact (resolve_zero_one_empty [("A", [Hit.mk "Q1" "d"])] "A" "t"
      { chosen := [], unresolved := 0, ambiguous := 0 }).2.1 (Hit.mk "Q1" "d") rfl
  · exact (resolve_zero_one_empty [("B", [Hit.mk "Q2" "", Hit.mk "Q3" ""])] "B" ""
      { chosen := [], unresolved := 0, ambiguous := 0 }).2.2
      (Hit.mk "Q2" "") [Hit.mk "Q3" ""] rfl rfl

/-- Claim C2: with multiple hits and a non-empty token, the tag
`"[EXT:" ++ token ++ "]"` selects the hits whose description contains it
as a literal substring; a unique match resolves to that hit's entity id,
and zero or two-or-more matches give `Ambiguous`, surfaced as an empty
identifier plus an ambiguous-count increment. -/
theorem resolve_tag_disambiguation (h0 h1 : Hit) (rest : List Hit) (token : String)
    (hne : token ≠ "") (idx : HitIndex) (code : String) (st : ResolveState)
    (hidx : lookupHits idx code = h0 :: h1 :: rest) :
    (∀ e, (h0 :: h1 :: rest).filter
        (fun h => strContains h.desc ("[EXT:" ++ token ++ "]")) = [e] →
      resolve (lookupHits idx code) token = ResolutionOutcome.Resolved e.qid) ∧
    (((h0 :: h1 :: rest).filter
        (fun h => strContains h.desc ("[EXT:" ++ token ++ "]"))).length ≠ 1 →
      resolve (lookupHits idx code) token = ResolutionOutcome.Ambiguous ∧
      (∀ row : String × String, pyStrip row.1 = code → row.2 = token →
        stepRow idx st row =
          { chosen := st.chosen ++ [""], unresolved := st.unresolved,
            ambiguous := st.ambiguous + 1 })) := by
  have hcond : ((h0 :: h1 :: rest).length == 1 || token == "") = false := by
    simp [hne]
  constructor
  · intro e he
    rw [hidx]
    simp only [resolve, hcond, Bool.false_eq_true, if_false]
    rw [he]
  · intro hlen
    have hres : resolve (lookupHits idx code) token = ResolutionOutcome.Ambiguous := by
      rw [hidx]
      simp only [resolve, hcond, Bool.false_eq_true, if_false]
      rcases hfe : (h0 :: h1 :: rest).filter
          (fun h => strContains h.desc ("[EXT:" ++ token ++ "]")) with _ | ⟨e, _ | ⟨e2, es⟩⟩
      · rw [hfe]
      · exact absurd (by rw [hfe]; rfl) hlen
      · rw [hfe]
    refine ⟨hres, fun row hrc hrt => ?_⟩
    simp [stepRow, hrc, hrt, hres]

/-- Claim C2 witness: the spec's own examples, a unique tag match and a
token matching neither description. -/
theorem resolve_tag_disambiguation_witness :
    resolve (lookupHits [("C", [Hit.mk "Q1" "x [EXT:abc123] y", Hit.mk "Q2" "no tag"])] "C")
        "abc123" = ResolutionOutcome.Resolved "Q1" ∧
    resolve (lookupHits [("C", [Hit.mk "Q1" "x [EXT:abc123] y", Hit.mk "Q2" "no tag"])] "C")
        "zzz999" = ResolutionOutcome.Ambiguous := by
  constructor
  · exact (resolve_tag_disambiguation (Hit.mk "Q1" "x [EXT:abc123] y") (Hit.mk "Q2" "no tag")
      [] "abc123" (by decide)
      [("C", [Hit.mk "Q1" "x [EXT:abc123] y", Hit.mk "Q2" "no tag"])] "C"
      { chosen := [], unresolved := 0, ambiguous := 0 } rfl).1 (Hit.mk "Q1" "x [EXT:abc123] y") (by decide)
  · exact ((resolve_tag_disambiguation (Hit.mk "Q1" "x [EXT:abc123] y") (Hit.mk "Q2" "no tag")
      [] "zzz999" (by decide)
      [("C", [Hit.mk "Q1" "x [EXT:abc123] y", Hit.mk "Q2" "no tag"])] "C"
      { chosen := [], unresolved := 0, ambiguous := 0 } rfl).2 (by decide)).1

/-- Claim C8: the resolution outcome of a row is a pure function of the
hit-index entry for the row's code and the row's token: equal hit lists
and equal tokens give equal outcomes across any two hit indexes, and
within a run the output cell of each row depends only on that row,
independent of row order and of the other rows. -/
theorem resolve_pure_function :
    (∀ (idx1 idx2 : HitIndex) (c1 c2 t1 t2 : String),
       lookupHits idx1 c1 = lookupHits idx2 c2 → t1 = t2 →
       resolve (lookupHits idx1 c1) t1 = resolve (lookupHits idx2 c2) t2) ∧
    (∀ (idx : HitIndex) (rows : List (String × String)),
       (runResolve idx rows).chosen =
         rows.map (fun r => outcomeCell (resolve (lookupHits idx (pyStrip r.1)) r.2))) := by
  constructor
  · intro idx1 idx2 c1 c2 t1 t2 hh ht
    rw [hh, ht]
  · intro idx rows
    rw [runResolve, runResolve_chosen_aux]
    rfl

/-- Claim C8 witness: two different hit indexes agreeing on the looked-up
code give the same outcome. -/
theorem resolve_pure_function_witness :
    resolve (lookupHits [("A", [Hit.mk "Q1" ""]), ("B", [])] "A") "t" =
      resolve (lookupHits [("Z", [Hit.mk "Q9" "zz"]), ("A", [Hit.mk "Q1" ""])] "A") "t" :=
  resolve_pure_function.1 [("A", [Hit.mk "Q1" ""]), ("B", [])]
    [("Z", [Hit.mk "Q9" "zz"]), ("A", [Hit.mk "Q1" ""])] "A" "A" "t" "t" (by decide) rfl

theorem hexDigitChar_isHexDigit (n : Nat) : isHexChar (hexDigitChar n) = true := by
  have h : n % 16 < 16 := Nat.mod_lt _ (by norm_num)
  unfold hexDigitChar
  generalize n % 16 = m at h ⊢
  interval_cases m <;> decide

theorem toHex8_length (x : Nat) : (toHex8 x).length = 8 := rfl

theorem toHex8_isHexDigit (x : Nat) (ch : Char) (h : ch ∈ toHex8 x) :
    isHexChar ch = true := by
  simp only [toHex8, List.mem_cons, List.not_mem_nil, or_false] at h
  rcases h with rfl | rfl | rfl | rfl | rfl | rfl | rfl | rfl <;>
    exact hexDigitChar_isHexDigit _

theorem sha1Hexdigest_length (msg : List Nat) : (sha1Hexdigest msg).length = 40 := by
  unfold sha1Hexdigest
  rcases sha1States msg with ⟨h0, h1, h2, h3, h4⟩
  simp [toHex8_length]

theorem sha1Hexdigest_isHexDigit (msg : List Nat) (ch : Char)
    (h : ch ∈ sha1Hexdigest msg) : isHexChar ch = true := by
  unfold sha1Hexdigest at h
  rcases sha1States msg with ⟨h0, h1, h2, h3, h4⟩
  simp only [List.mem_append] at h
  rcases h with ((((h | h) | h) | h) | h) <;> exact toHex8_isHexDigit _ _ h

theorem sha1_token_length (fid cj : String) : (sha1_token fid cj).length = 12 := by
  show (String.mk _).data.length = 12
  simp [List.length_take, sha1Hexdigest_length, toHex8_length]

/-- Claim C3: the token generator truncates the descriptor to its first
256 characters, is pure and deterministic, separates the two concrete
inputs of the spec, and always returns 12 hexadecimal characters. -/
theorem sha1_token_spec :
    (∀ fid cj, sha1_token fid cj = sha1_token fid (String.mk (cj.data.take 256))) ∧
    (∀ a b c d : String, a = c → b = d → sha1_token a b = sha1_token c d) ∧
    sha1_token "feat-1" "geomdataX" ≠ sha1_token "feat-1" "geomdata" ∧
    (∀ fid cj, (sha1_token fid cj).length = 12 ∧
       ∀ ch ∈ (sha1_token fid cj).data, isHexChar ch = true) := by
  refine ⟨fun fid cj => ?_, fun a b c d hac hbd => by rw [hac, hbd], by decide,
    fun fid cj => ⟨sha1_token_length fid cj, fun ch hch => ?_⟩⟩
  · unfold sha1_token
    simp [List.take_take]
  · exact sha1Hexdigest_isHexDigit _ ch (List.take_subset _ _ hch)

/-- Claim C3 witness: determinism and token shape at concrete inputs. -/
theorem sha1_token_spec_witness :
    sha1_token "feat-1" "geomdata" = sha1_token "feat-1" "geomdata" ∧
    (sha1_token "feat-1" "geomdata").length = 12 :=
  ⟨sha1_token_spec.2.1 "feat-1" "geomdata" "feat-1" "geomdata" rfl rfl,
   (sha1_token_spec.2.2.2 "feat-1" "geomdata").1⟩

/-- Claim C4 counterexample: a row whose feature identity and geometry
descriptor are both absent, in a table that has both columns, receives a
non-empty token (the hash of two empty strings), not the empty string. -/
theorem rowToken_absent_counterexample :
    rowToken true true none none = "3eb416223e9e" ∧
    rowToken true true none none ≠ "" := by
  constructor <;> decide

/-- Claim C4 (amended): absence is detected at column granularity.  If
either of the two context columns is absent from the table, the token of
every row is empty; if both columns are present, every row receives the
non-empty token of its (possibly empty) cell values. -/
theorem rowToken_columns (hf hc : Bool) (fid cj : Option String) :
    ((hf && hc) = false → rowToken hf hc fid cj = "") ∧
    (hf = true → hc = true →
      rowToken hf hc fid cj = sha1_token (fid.getD "") (cj.getD "") ∧
      rowToken hf hc fid cj ≠ "") := by
  constructor
  · intro h
    simp [rowToken, h]
  · intro h1 h2
    subst h1; subst h2
    have heq : rowToken true true fid cj = sha1_token (fid.getD "") (cj.getD "") := by
      simp [rowToken]
    refine ⟨heq, ?_⟩
    intro hempty
    have h12 := sha1_token_length (fid.getD "") (cj.getD "")
    rw [← heq, hempty] at h12
    simp [String.length] at h12

/-- Claim C4 witness: a table missing the coordinates column gives an
empty token; a table with both columns gives the hash of the cells. -/
theorem rowToken_columns_witness :
    rowToken true false (some "f") (some "c") = "" ∧
    (rowToken true true (some "f") (some "c") = sha1_token "f" "c" ∧
      rowToken true true (some "f") (some "c") ≠ "") :=
  ⟨(rowToken_columns true false (some "f") (some "c")).1 rfl,
   (rowToken_columns true true (some "f") (some "c")).2 rfl rfl⟩

theorem attemptEval_retryable {α : Type} (a : AttemptResult α)
    (h : isRetryableFailure a = true) :
    attemptEval a = Except.error (failureErr a) := by
  cases a with
  | transportFailure => rfl
  | httpStatus s ok d =>
    simp only [isRetryableFailure] at h
    simp [attemptEval, failureErr, h]

theorem httpRunFuel_all_fail {α : Type} (backoff : ℚ) (script : Nat → AttemptResult α)
    (errs : Nat → AttemptErr)
    (hfail : ∀ i, attemptEval (script i) = Except.error (errs i)) (retries : Nat) :
    ∀ fuel a, a < retries → retries ≤ a + fuel + 1 →
      httpRunFuel backoff script retries fuel a =
        { attemptsMade := retries,
          sleeps := (List.range' (a + 1) (retries - a - 1)).map (sleepDur backoff),
          result := Except.error (errs retries) } := by
  intro fuel
  induction fuel with
  | zero =>
    intro a ha hb
    have he : retries = a + 1 := by omega
    subst he
    have h0 : a + 1 - a - 1 = 0 := by omega
    rw [h0]
    simp only [httpRunFuel, hfail (a + 1)]
    simp
  | succ f ih =>
    intro a ha hb
    simp only [httpRunFuel, hfail (a + 1)]
    by_cases hc : retries ≤ a + 1
    · have he : retries = a + 1 := by omega
      subst he
      have h0 : a + 1 - a - 1 = 0 := by omega
      rw [h0]
      simp
    · have h1 : a + 1 < retries := by omega
      simp only [if_neg hc]
      rw [ih (a + 1) (by omega) (by omega)]
      have h2 : retries - a - 1 = (retries - (a + 1) - 1) + 1 := by omega
      rw [h2, List.range'_succ]
      simp

/-- Claim C6: with `retries = n ≥ 1` and every attempt failing with a
retryable failure, the client makes exactly `n` attempts, propagates the
exception of the final attempt, and sleeps
`backoff ^ (attempt - 1) + 0.1 * attempt` seconds after each failed
attempt `1, ..., n - 1`. -/
theorem retry_exhaustion {α : Type} (retries : Nat) (hr : 1 ≤ retries) (backoff : ℚ)
    (script : Nat → AttemptResult α)
    (hfail : ∀ i, isRetryableFailure (script i) = true) :
    (httpPostSparql retries backoff script).attemptsMade = retries ∧
    (httpPostSparql retries backoff script).result =
      Except.error (failureErr (script retries)) ∧
    (httpPostSparql retries backoff script).sleeps =
      (List.range' 1 (retries - 1)).map (sleepDur backoff) := by
  have h := httpRunFuel_all_fail backoff script (fun i => failureErr (script i))
    (fun i => attemptEval_retryable _ (hfail i)) retries retries 0 (by omega) (by omega)
  rw [httpPostSparql, h]
  exact ⟨rfl, rfl, rfl⟩

/-- Claim C6 witness: two transport failures with `retries = 2` give two
attempts, the second failure propagated, and one backoff sleep. -/
theorem retry_exhaustion_witness :
    (httpPostSparql 2 2 (fun _ => AttemptResult.transportFailure (α := Unit))).attemptsMade
        = 2 ∧
    (httpPostSparql 2 2 (fun _ => AttemptResult.transportFailure (α := Unit))).result =
      Except.error AttemptErr.transport ∧
    (httpPostSparql 2 2 (fun _ => AttemptResult.transportFailure (α := Unit))).sleeps =
      (List.range' 1 1).map (sleepDur 2) :=
  retry_exhaustion 2 (by omega) 2 (fun _ => AttemptResult.transportFailure)
    (fun _ => rfl)

/-- Claim C5 counterexample: a success status whose body does not parse
is retried, not propagated.  With `retries = 2`, a malformed body on
attempt 1 and a well-formed one on attempt 2, the client performs a
second attempt and returns the parsed value, where the claim requires a
fatal parsing failure with no retry. -/
theorem malformed_retry_counterexample :
    (httpPostSparql 2 2 (fun i =>
        if i == 1 then AttemptResult.httpStatus 200 false 0
        else AttemptResult.httpStatus 200 true (7 : Nat))).attemptsMade = 2 ∧
    (httpPostSparql 2 2 (fun i =>
        if i == 1 then AttemptResult.httpStatus 200 false 0
        else AttemptResult.httpStatus 200 true (7 : Nat))).result =
      Except.ok 7 := by
  constructor <;> rfl

/-- Claim C5 (amended): a success status with a malformed body raises a
parse error and a non-retryable 4xx/5xx status also raises, but every
exception of an attempt is handled uniformly by the same handler: while
the attempt number is below `retries` the client sleeps and retries
(malformed bodies and non-retryable statuses included), and the failure
is propagated only on the `retries`-th attempt. -/
theorem http_retry_uniform {α : Type} (retries : Nat) (backoff : ℚ)
    (script : Nat → AttemptResult α) (e : AttemptErr) (d : α) :
    (attemptEval (AttemptResult.httpStatus 200 false d) =
        Except.error AttemptErr.parseError ∧
      attemptEval (AttemptResult.httpStatus 404 true d) =
        Except.error (AttemptErr.httpError 404) ∧
      attemptEval (AttemptResult.httpStatus 200 true d) = Except.ok d) ∧
    (attemptEval (script 1) = Except.error e → 2 ≤ retries →
      httpPostSparql retries backoff script =
        { attemptsMade :=
            (httpRunFuel backoff script retries (retries - 1) 1).attemptsMade,
          sleeps := sleepDur backoff 1 ::
            (httpRunFuel backoff script retries (retries - 1) 1).sleeps,
          result := (httpRunFuel backoff script retries (retries - 1) 1).result }) ∧
    (attemptEval (script 1) = Except.error e → retries ≤ 1 →
      httpPostSparql retries backoff script =
        { attemptsMade := 1, sleeps := [], result := Except.error e }) := by
  refine ⟨⟨rfl, rfl, rfl⟩, fun h1 h2 => ?_, fun h1 h2 => ?_⟩
  · obtain ⟨k, rfl⟩ : ∃ k, retries = k + 2 := ⟨retries - 2, by omega⟩
    rw [httpPostSparql]
    simp only [httpRunFuel, Nat.zero_add, h1]
    rw [if_neg (by omega)]
  · interval_cases retries
    · rw [httpPostSparql]
      simp only [httpRunFuel, Nat.zero_add, h1]
    · rw [httpPostSparql]
      simp only [httpRunFuel, Nat.zero_add, h1]
      rw [if_pos (by omega)]

/-- Claim C5 witness (amended claim): a first-attempt parse failure with
`retries = 2` leads to a sleep and a second attempt. -/
theorem http_retry_uniform_witness :
    httpPostSparql 2 2 (fun _ => AttemptResult.httpStatus 200 false (0 : Nat)) =
      { attemptsMade :=
          (httpRunFuel 2 (fun _ => AttemptResult.httpStatus 200 false (0 : Nat))
            2 1 1).attemptsMade,
        sleeps := sleepDur 2 1 ::
          (httpRunFuel 2 (fun _ => AttemptResult.httpStatus 200 false (0 : Nat))
            2 1 1).sleeps,
        result := (httpRunFuel 2 (fun _ => AttemptResult.httpStatus 200 false (0 : Nat))
            2 1 1).result } :=
  (http_retry_uniform 2 2 (fun _ => AttemptResult.httpStatus 200 false 0)
    AttemptErr.parseError 0).2.1 rfl (by omega)

theorem chunk_join_aux {α : Type} (seq : List α) (n : Nat) (k : Nat) :
    ((List.range k).map (fun i => (seq.drop (i * n)).take n)).flatten =
      seq.take (k * n) := by
  induction k with
  | zero => simp
  | succ k ih =>
    rw [List.range_succ, List.map_append, List.flatten_append, ih]
    simp [Nat.succ_mul, List.take_add]

theorem ceil_mul_ge (len n : Nat) (hn : 0 < n) : len ≤ (len + n - 1) / n * n := by
  rcases Nat.eq_zero_or_pos len with h | h
  · simp [h]
  · obtain ⟨m, rfl⟩ : ∃ m, len = m + 1 := ⟨len - 1, by omega⟩
    have hrw : m + 1 + n - 1 = m + n := by omega
    rw [hrw, Nat.add_div_right _ hn]
    have h1 := Nat.div_add_mod m n
    have h2 : m % n < n := Nat.mod_lt _ hn
    have h3 : (m / n + 1) * n = n * (m / n) + n := by ring
    rw [h3]
    generalize n * (m / n) = t at h1 ⊢
    omega

theorem chunkIdx_flatten {α : Type} (seq : List α) (n : Nat) (hn : 0 < n) :
    (chunkIdx seq n).flatten = seq := by
  rw [chunkIdx, chunk_join_aux]
  exact List.take_of_length_le (ceil_mul_ge seq.length n hn)

theorem chunk_index_lt (len n i : Nat) (hn : 0 < n) (hi : i < (len + n - 1) / n) :
    i * n < len := by
  rcases Nat.eq_zero_or_pos len with h0 | h0
  · subst h0
    rw [Nat.div_eq_of_lt (by omega)] at hi
    omega
  · have h3 : (i + 1) * n ≤ (len + n - 1) / n * n := Nat.mul_le_mul_right _ hi
    have h1 : (len + n - 1) / n * n ≤ len + n - 1 := Nat.div_mul_le_self _ _
    have h4 : (i + 1) * n = i * n + n := by ring
    rw [h4] at h3
    generalize hK : (len + n - 1) / n * n = K at h1 h3
    generalize hI : i * n = I at h3 ⊢
    omega

theorem chunkIdx_map_length {α : Type} (seq : List α) (n : Nat) :
    (chunkIdx seq n).map List.length =
      (List.range ((seq.length + n - 1) / n)).map
        (fun i => min n (seq.length - i * n)) := by
  rw [chunkIdx, List.map_map]
  refine List.map_congr_left (fun i _ => ?_)
  simp [List.length_take, List.length_drop]

/-- Claim C7: the codes queried are the distinct non-empty stripped
codes in lexicographically sorted order; the batches are consecutive
chunks covering every code exactly once, each non-empty and of size at
most `n`, all of size exactly `n` except possibly the last; and 200
codes with batch size 75 give exactly the batch sizes 75, 75, 50. -/
theorem batching_partition (col : List String) (n : Nat) (hn : 0 < n) :
    (List.Sorted (· ≤ ·) (extractCodes col) ∧ (extractCodes col).Nodup) ∧
    (∀ c, c ∈ extractCodes col ↔ (c ≠ "" ∧ c ∈ col.map pyStrip)) ∧
    (chunkIdx (extractCodes col) n).flatten = extractCodes col ∧
    (∀ b ∈ chunkIdx (extractCodes col) n, b ≠ [] ∧ b.length ≤ n) ∧
    (∀ i b, (chunkIdx (extractCodes col) n)[i]? = some b →
       i + 1 < (chunkIdx (extractCodes col) n).length → b.length = n) ∧
    (∀ seq : List String, seq.length = 200 →
       (chunkIdx seq 75).map List.length = [75, 75, 50]) := by
  refine ⟨⟨List.sorted_insertionSort _ _, ?_⟩, fun c => ?_, chunkIdx_flatten _ n hn,
    fun b hb => ?_, fun i b hib hlast => ?_, fun seq hlen => ?_⟩
  · exact ((List.perm_insertionSort _ _).nodup_iff).mpr (List.nodup_dedup _)
  · rw [extractCodes, (List.perm_insertionSort _ _).mem_iff, List.mem_dedup,
      List.mem_filter]
    simp only [ne_eq, decide_not, Bool.not_eq_eq_eq_not, Bool.not_true,
      decide_eq_false_iff_not]
    tauto
  · rw [chunkIdx, List.mem_map] at hb
    obtain ⟨i, hi, rfl⟩ := hb
    rw [List.mem_range] at hi
    have hlt := chunk_index_lt (extractCodes col).length n i hn hi
    constructor
    · intro hemp
      have := congrArg List.length hemp
      simp [List.length_take, List.length_drop] at this
      omega
    · simp [List.length_take]
  · rw [chunkIdx] at hib hlast
    rw [List.length_map, List.length_range] at hlast
    rw [List.getElem?_map, List.getElem?_range (by omega)] at hib
    simp only [Option.map_some'] at hib
    have hlt := chunk_index_lt (extractCodes col).length n (i + 1) hn (by omega)
    cases hib
    have h4 : (i + 1) * n = i * n + n := by ring
    rw [h4] at hlt
    simp [List.length_take, List.length_drop]
    omega
  · rw [chunkIdx_map_length, hlen]
    decide

/-- Claim C7 witness: a small concrete column and the 200-code instance. -/
theorem batching_partition_witness :
    (chunkIdx (extractCodes ["b", " a ", "", "a"]) 2).flatten =
      extractCodes ["b", " a ", "", "a"] ∧
    (chunkIdx (List.replicate 200 "x") 75).map List.length = [75, 75, 50] :=
  ⟨(batching_partition ["b", " a ", "", "a"] 2 (by omega)).2.2.1,
   (batching_partition [] 1 (by omega)).2.2.2.2.2 (List.replicate 200 "x")
     (by simp)⟩

theorem isPropCode_isLetterDigits (p : String) (h : isPropCode p = true) :
    isLetterDigits p = true := by
  obtain ⟨l⟩ := p
  cases l with
  | nil => exact absurd h (by decide)
  | cons c rest =>
    simp only [isPropCode, Bool.and_eq_true, beq_iff_eq] at h
    obtain ⟨⟨hc, hne⟩, hdig⟩ := h
    subst hc
    have hP : 'P'.isAlpha = true := by decide
    simp [isLetterDigits, hP, hne, hdig]

theorem buildUnions_eq (props : List String) :
    buildUnions props = ((props.map pyStrip).filter isPropCode).map propClause := by
  rw [buildUnions]
  generalize props.map pyStrip = l
  induction l with
  | nil => rfl
  | cons x xs ih =>
    by_cases hx : isPropCode x = true <;>
      simp [List.filterMap_cons, List.filter_cons, hx, ih]

/-- Claim C9: a match clause is built only for entries matching the
syntactic property pattern (in particular an ASCII letter followed by
digits), all other entries are silently dropped, and when no entry
matches, the union block falls back to the single default property
`P528`, so query construction never fails. -/
theorem buildQuery_filter_fallback (props : List String) :
    buildUnions props =
      ((props.map pyStrip).filter isPropCode).map propClause ∧
    (∀ p, isPropCode p = true → isLetterDigits p = true) ∧
    ((props.map pyStrip).all (fun p => !isLetterDigits p) = true →
      unionBlock props = "\x7b ?item wdt:P528 ?code . \x7d") := by
  refine ⟨buildUnions_eq props, isPropCode_isLetterDigits, fun hall => ?_⟩
  have hnil : buildUnions props = [] := by
    rw [buildUnions_eq, List.map_eq_nil_iff, List.filter_eq_nil_iff]
    intro a ha
    have h1 := (List.all_eq_true.mp hall) a ha
    intro hPa
    rw [isPropCode_isLetterDigits a hPa] at h1
    exact absurd h1 (by decide)
  rw [unionBlock, hnil]
  rfl

/-- Claim C9 witness: a property list with no matching entry falls back
to the default clause, and a valid property code matches the spec's
letter-digits pattern. -/
theorem buildQuery_filter_fallback_witness :
    unionBlock ["x"] = "\x7b ?item wdt:P528 ?code . \x7d" ∧
    isLetterDigits "P31" = true :=
  ⟨(buildQuery_filter_fallback ["x"]).2.2 (by decide),
   (buildQuery_filter_fallback []).2.1 "P31" (by decide)⟩

theorem getCol_append (t1 t2 : Table) (nm : String) :
    getCol (t1 ++ t2) nm =
      match getCol t1 nm with
      | some v => some v
      | none => getCol t2 nm := by
  induction t1 with
  | nil => rfl
  | cons c cs ih =>
    by_cases h : (c.1 == nm) = true <;> simp [getCol, h, ih]

theorem getCol_not_mem (t : Table) (nm : String) (h : nm ∉ t.map Prod.fst) :
    getCol t nm = none := by
  induction t with
  | nil => rfl
  | cons c cs ih =>
    simp only [List.map_cons, List.mem_cons, not_or] at h
    simp [getCol, Ne.symm h.1, ih h.2]

theorem getCol_mem_nodup (t : Table) (hnd : (t.map Prod.fst).Nodup)
    (p : String × List String) (hp : p ∈ t) : getCol t p.1 = some p.2 := by
  induction t with
  | nil => cases hp
  | cons c cs ih =>
    rw [List.map_cons, List.nodup_cons] at hnd
    rcases List.mem_cons.mp hp with rfl | hp'
    · simp [getCol]
    · have hne : c.1 ≠ p.1 := by
        intro he
        apply hnd.1
        rw [he]
        exact List.mem_map.mpr ⟨p, hp', rfl⟩
      simp [getCol, hne, ih hnd.2 hp']

theorem setCol_of_not_mem (t : Table) (nm : String) (v : List String)
    (h : nm ∉ t.map Prod.fst) :
    setCol t nm v = t ++ [(nm, v)] := by
  rw [setCol, if_neg]
  intro hany
  obtain ⟨c, hc, hbeq⟩ := List.any_eq_true.mp hany
  exact h (List.mem_map.mpr ⟨c, hc, beq_iff_eq.mp hbeq⟩)

theorem filterMap_names_slice (G F : Table)
    (hnd : (F.map Prod.fst).Nodup)
    (hG : ∀ nm v, getCol F nm = some v → getCol G nm = some v) :
    ∀ (sub pre post : Table), F = pre ++ sub ++ post →
      (sub.map Prod.fst).filterMap
        (fun nm => (getCol G nm).map (fun v => (nm, v))) = sub := by
  intro sub
  induction sub with
  | nil => intro pre post _; rfl
  | cons c cs ih =>
    intro pre post hdf
    have hcF : c ∈ F := by rw [hdf]; simp
    have hGc := hG _ _ (getCol_mem_nodup F hnd c hcF)
    simp only [List.map_cons, List.filterMap_cons, hGc, Option.map_some']
    rw [ih (pre ++ [c]) post (by rw [hdf]; simp)]

/-- Claim C10 (amended): for an input table with distinct column names,
none of them `wikidata`, containing the code column, the output table is
the input table with the single new column `("wikidata", chosen)`
inserted immediately after the code column — every input column keeps
its values and relative order.  When the input already has a `wikidata`
column, its values are overwritten instead (see the counterexample). -/
theorem assembleOutput_frame (df : Table) (code_col : String) (chosen : List String)
    (hnd : (df.map Prod.fst).Nodup)
    (hw : "wikidata" ∉ df.map Prod.fst)
    (hc : code_col ∈ df.map Prod.fst) :
    assembleOutput df code_col chosen =
      Except.ok
        (df.take (pyIndex (df.map Prod.fst) code_col + 1) ++
          ("wikidata", chosen) :: df.drop (pyIndex (df.map Prod.fst) code_col + 1)) := by
  have hset : setCol df "wikidata" chosen = df ++ [("wikidata", chosen)] :=
    setCol_of_not_mem df _ chosen hw
  have hcols : (((df ++ [("wikidata", chosen)]).map Prod.fst).erase "wikidata")
      = df.map Prod.fst := by
    rw [List.map_append, List.erase_append_right _ hw]
    simp
  have hG : ∀ nm v, getCol df nm = some v →
      getCol (df ++ [("wikidata", chosen)]) nm = some v := by
    intro nm v h
    rw [getCol_append, h]
  have hwval : getCol (df ++ [("wikidata", chosen)]) "wikidata" = some chosen := by
    rw [getCol_append, getCol_not_mem df _ hw]
    rfl
  have h1 : ((df.map Prod.fst).take (pyIndex (df.map Prod.fst) code_col + 1)).filterMap
        (fun nm => (getCol (df ++ [("wikidata", chosen)]) nm).map (fun v => (nm, v)))
      = df.take (pyIndex (df.map Prod.fst) code_col + 1) := by
    rw [← List.map_take]
    exact filterMap_names_slice (df ++ [("wikidata", chosen)]) df hnd hG
      (df.take (pyIndex (df.map Prod.fst) code_col + 1)) []
      (df.drop (pyIndex (df.map Prod.fst) code_col + 1))
      (by rw [List.nil_append, List.take_append_drop])
  have h3 : ((df.map Prod.fst).drop (pyIndex (df.map Prod.fst) code_col + 1)).filterMap
        (fun nm => (getCol (df ++ [("wikidata", chosen)]) nm).map (fun v => (nm, v)))
      = df.drop (pyIndex (df.map Prod.fst) code_col + 1) := by
    rw [← List.map_drop]
    exact filterMap_names_slice (df ++ [("wikidata", chosen)]) df hnd hG
      (df.drop (pyIndex (df.map Prod.fst) code_col + 1))
      (df.take (pyIndex (df.map Prod.fst) code_col + 1)) []
      (by rw [List.append_nil, List.take_append_drop])
  simp only [assembleOutput, hset, hcols]
  rw [if_pos hc, pyInsert, List.filterMap_append, List.filterMap_cons, hwval]
  simp only [Option.map_some']
  rw [h1, h3]

/-- Claim C10 counterexample: an input table that already contains a
`wikidata` column does not keep that column's cell values — they are
overwritten with the resolved identifiers and no new column is added —
so the output does not contain every input column unchanged. -/
theorem assembleOutput_counterexample :
    assembleOutput [("Code", ["A"]), ("wikidata", ["old"])] "Code" ["Q1"] =
      Except.ok [("Code", ["A"]), ("wikidata", ["Q1"])] ∧
    ("wikidata", ["old"]) ∉ ([("Code", ["A"]), ("wikidata", ["Q1"])] : Table) := by
  exact ⟨rfl, by decide⟩

/-- Claim C10 witness: a three-column table gets `wikidata` inserted
directly after the code column, all other columns unchanged. -/
theorem assembleOutput_frame_witness :
    assembleOutput [("id", ["1"]), ("Code", ["A"]), ("v", ["9"])] "Code" ["Q1"] =
      Except.ok
        [("id", ["1"]), ("Code", ["A"]), ("wikidata", ["Q1"]), ("v", ["9"])] := by
  have h := assembleOutput_frame [("id", ["1"]), ("Code", ["A"]), ("v", ["9"])]
    "Code" ["Q1"] (by decide) (by decide) (by decide)
  exact h
